import Mathlib

/-!
Shallow embedding of the markdown-documentation-processing repository
(`mddocproc/_rules.py`, `mddocformatter/_document.py`) together with models of
the Python standard-library routines those modules call (`str` methods,
`os.path`/`posixpath` helpers, `urllib.parse.unquote`, `fnmatch`, `difflib`).
Strings are modelled as Lean `String`s (lists of unicode scalar values, which
matches Python's code-point indexing), machine-level effects (the filesystem,
the logger) are modelled as explicit parameters and returned event lists.
-/

namespace MDDoc

/-! ## Models of Python `str` primitives -/

/-- Model of Python's default whitespace set for `str.strip` (ASCII part:
space, tab, newline, carriage return, vertical tab, form feed). -/
def pyIsSpace (c : Char) : Bool :=
  c == ' ' || c == '\t' || c == '\n' || c == '\r' || c == '\x0b' || c == '\x0c'

/-- Model of Python `str.strip()` on a character list: drop leading and
trailing whitespace. -/
def pyStripL (l : List Char) : List Char :=
  ((l.dropWhile pyIsSpace).reverse.dropWhile pyIsSpace).reverse

/-- Model of Python `str.strip()`. -/
def pyStrip (s : String) : String :=
  ⟨pyStripL s.data⟩

/-- Model of Python `str.split(sep)` for a one-character separator `sep`
(the separator is not a regular expression; empty pieces are kept, and the
result is always non-empty). -/
def pySplitChar (sep : Char) : List Char → List (List Char)
  | [] => [[]]
  | c :: r =>
    if c == sep then [] :: pySplitChar sep r
    else
      match pySplitChar sep r with
      | h :: t => (c :: h) :: t
      | [] => [[c]]

theorem pySplitChar_ne_nil (sep : Char) (l : List Char) : pySplitChar sep l ≠ [] := by
  cases l with
  | nil => simp [pySplitChar]
  | cons c r =>
    simp only [pySplitChar]
    split
    · simp
    · cases h : pySplitChar sep r <;> simp

theorem pySplitChar_no_sep (sep : Char) (l : List Char) (h : l.all (fun c => ¬(c == sep))) :
    pySplitChar sep l = [l] := by
  induction l with
  | nil => rfl
  | cons c r ih =>
    simp only [List.all_cons, Bool.and_eq_true, decide_eq_true_eq] at h
    simp only [pySplitChar]
    rw [if_neg (by simpa using h.1)]
    rw [ih (by simpa using h.2)]

/-- `mddocproc._rules._extract_args`: split a macro argument string on commas
and strip each argument; the exactly-empty string gives no arguments
(Python's `if value:` truthiness test). -/
def extract_args (value : String) : List String :=
  if value = "" then []
  else (pySplitChar ',' value.data).map (fun l => (⟨pyStripL l⟩ : String))

theorem pyStripL_all_space (l : List Char) (h : l.all pyIsSpace) : pyStripL l = [] := by
  have h1 : l.dropWhile pyIsSpace = [] := by
    simpa using List.dropWhile_eq_nil_iff.mpr (by
      intro x hx
      exact List.all_eq_true.mp h x hx)
  simp [pyStripL, h1]

/-- Claim C10: `extract_args` returns the empty argument tuple only for the
exactly-empty argument string, and on any non-empty all-whitespace argument
string (which contains no comma) it returns exactly one empty-string
argument. -/
theorem extract_args_empty_iff (s : String) :
    (extract_args s = [] ↔ s = "") ∧
    (s ≠ "" → s.data.all pyIsSpace → extract_args s = [""]) := by
  constructor
  · constructor
    · intro h
      by_contra hne
      rw [extract_args, if_neg hne] at h
      rcases hl : pySplitChar ',' s.data with _ | ⟨a, t⟩
      · exact pySplitChar_ne_nil ',' s.data hl
      · rw [hl] at h
        simp at h
    · intro h
      subst h
      rfl
  · intro hne hsp
    rw [extract_args, if_neg hne]
    have hnosep : s.data.all (fun c => ¬(c == ',')) := by
      rw [List.all_eq_true] at hsp ⊢
      intro x hx
      have := hsp x hx
      simp only [decide_eq_true_eq]
      intro hc
      rw [beq_iff_eq] at hc
      subst hc
      simp [pyIsSpace] at this
    rw [pySplitChar_no_sep ',' s.data hnosep]
    simp only [List.map_cons, List.map_nil]
    rw [pyStripL_all_space s.data hsp]

/-- Witness for claim C10 at the one-space argument string. -/
theorem extract_args_empty_iff_witness :
    extract_args " " = [""] :=
  (extract_args_empty_iff " ").2 (by decide) (by decide)

/-- Model of Python `str.lower()` (ASCII case folding, which covers every
string this repository compares). -/
def pyLower (s : String) : String :=
  ⟨s.data.map Char.toLower⟩

/-- Model of Python `str.startswith`, computed on the character lists so that
it reduces inside the kernel. -/
def startsWithS (s pre : String) : Bool :=
  pre.data.isPrefixOf s.data

/-- Model of Python `str.endswith`, computed on the character lists. -/
def endsWithS (s post : String) : Bool :=
  post.data.isSuffixOf s.data

/-- First index at which `pat` occurs as a contiguous sublist of `s`
(leftmost occurrence), used to model Python `str.replace` and the `in`
substring test. -/
def findSub (pat : List Char) : List Char → Option Nat
  | [] => if pat = [] then some 0 else none
  | c :: r =>
    if pat.isPrefixOf (c :: r) then some 0
    else (findSub pat r).map (· + 1)

/-- Fuel-driven worker for `replaceAll`; the fuel is an upper bound on the
number of replacements (sufficient whenever `pat` is non-empty). -/
def replaceAllFuel (pat repl : List Char) : Nat → List Char → List Char
  | 0, s => s
  | fuel + 1, s =>
    match findSub pat s with
    | none => s
    | some i => s.take i ++ repl ++ replaceAllFuel pat repl fuel (s.drop (i + pat.length))

/-- Model of Python `str.replace(old, new)` for non-empty `old`: replace all
non-overlapping occurrences, scanning left to right. -/
def replaceAll (pat repl s : String) : String :=
  ⟨replaceAllFuel pat.data repl.data (s.data.length + 1) s.data⟩

/-- Model of the Python `in` substring test. -/
def containsSub (pat s : String) : Bool :=
  (findSub pat.data s.data).isSome

/-! ## Models of `posixpath` helpers (`os.path` on the POSIX flavour) -/

/-- Path components of a path string, dropping empty components
(as CPython's `posixpath.relpath` does after splitting on the separator). -/
def pathParts (p : String) : List String :=
  ((pySplitChar '/' p.data).map (fun l => (⟨l⟩ : String))).filter (· ≠ "")

/-- Length of the longest common prefix of two lists. -/
def commonLen : List String → List String → Nat
  | a :: as, b :: bs => if a = b then commonLen as bs + 1 else 0
  | _, _ => 0

/-- Model of `posixpath.relpath(path, start)` for absolute, already-normalised
arguments (the repository always passes absolute paths, on which
`abspath` is the identity): count how many components of `start` remain after
the common prefix, emit that many `..` components, then the remainder of
`path`. -/
def relpath (path start : String) : String :=
  let pl := pathParts path
  let sl := pathParts start
  let i := commonLen pl sl
  let rel := List.replicate (sl.length - i) ".." ++ pl.drop i
  if rel = [] then "." else String.intercalate "/" rel

/-- Model of two-argument `posixpath.join`. -/
def joinPath (a b : String) : String :=
  if startsWithS b "/" then b
  else if a = "" ∨ endsWithS a "/" then a ++ b
  else a ++ "/" ++ b

/-- Model of variadic `posixpath.join(a, *parts)`. -/
def joinPathList (a : String) (parts : List String) : String :=
  parts.foldl joinPath a

/-- Model of `posixpath.dirname`: everything before the final separator
(empty when there is no separator; a lone leading separator is kept). -/
def dirname (p : String) : String :=
  match findSub ['/'] p.data.reverse with
  | none => ""
  | some i =>
    let cut := p.data.length - 1 - i
    if cut = 0 then "/" else ⟨p.data.take cut⟩

/-- Model of `posixpath.basename`: everything after the final separator. -/
def basename (p : String) : String :=
  match findSub ['/'] p.data.reverse with
  | none => p
  | some i => ⟨p.data.drop (p.data.length - i)⟩

/-! ## The document model (`mddocformatter/_document.py`) -/

/-- `Document`: one file's input path, mutable target path, immutable
original contents and live contents. `load_document` initialises
`target_path = input_path` and `original_contents = contents`. -/
structure Document where
  input_path : String
  target_path : String
  original_contents : String
  contents : String
deriving DecidableEq, Repr

/-- Macro-table values: either a constant string or a callable taking
positional string arguments; a callable that raises is modelled as
returning `none`. -/
inductive MacroVal where
  | const (value : String)
  | fn (f : List String → Option String)

/-- `ProcessingSettings`: the fields of the settings object that the rules
under test read. An unconfigured target directory is the empty (falsy)
string, matching Python truthiness. -/
structure ProcessingSettings where
  root_directory : String
  target_directory : String
  version_name : String
  macros : List (String × MacroVal)

/-- `ProcessingContext`: settings plus the `target` attribute that
`rename_uniquely_for_confluence` assigns on the context object
(`None` until that rule runs). -/
structure ProcessingContext where
  settings : ProcessingSettings
  target : Option String := none

/-! ## Model of `fnmatch.fnmatch` (POSIX `normcase` is the identity) -/

/-- Locate the body of a bracket class and the remainder of the pattern after
the closing bracket; a `]` in the first body position is literal, and a
missing closing bracket means the opening `[` itself is literal
(mirrors how `fnmatch.translate` searches for the closing bracket). -/
def splitClass (q : List Char) : Option (List Char × List Char) :=
  match q with
  | ']' :: r =>
    match findSub [']'] r with
    | none => none
    | some i => some (']' :: r.take i, r.drop (i + 1))
  | _ =>
    match findSub [']'] q with
    | none => none
    | some i => some (q.take i, q.drop (i + 1))

/-- Parse a bracket-class body into character ranges (a single character `c`
becomes the range `c-c`; a `-` at either end is literal). -/
def classRanges : List Char → List (Char × Char)
  | [] => []
  | a :: '-' :: b :: rest => (a, b) :: classRanges rest
  | a :: rest => (a, a) :: classRanges rest

/-- Membership in a parsed bracket class (an inverted range matches
nothing, as in the translated regular expression). -/
def inClass (c : Char) (items : List (Char × Char)) : Bool :=
  items.any fun lohi => lohi.1 ≤ c && c ≤ lohi.2

/-- Fuel-driven shell-glob matcher: `*` matches any sequence, `?` one
character, `[...]`/`[!...]` a (negated) class. The fuel only needs to cover
`pattern.length + string.length` steps, since every recursive call shortens
the pattern or the string. -/
def matchGlobFuel : Nat → List Char → List Char → Bool
  | 0, _, _ => false
  | fuel + 1, p, s =>
    match p, s with
    | [], [] => true
    | [], _ :: _ => false
    | '*' :: p', s =>
      matchGlobFuel fuel p' s ||
        (match s with
         | [] => false
         | _ :: s' => matchGlobFuel fuel ('*' :: p') s')
    | '?' :: p', _ :: s' => matchGlobFuel fuel p' s'
    | '?' :: _, [] => false
    | '[' :: q, s =>
      let negq : Bool × List Char := match q with | '!' :: r => (true, r) | _ => (false, q)
      match splitClass negq.2 with
      | some (body, rest) =>
        match s with
        | [] => false
        | c :: s' => (inClass c (classRanges body) != negq.1) && matchGlobFuel fuel rest s'
      | none =>
        match s with
        | [] => false
        | c :: s' => c == '[' && matchGlobFuel fuel q s'
    | c :: p', d :: s' => c == d && matchGlobFuel fuel p' s'
    | _ :: _, [] => false

/-- Model of `fnmatch.fnmatch(name, pattern)` on POSIX, where `normcase` is
the identity: the whole name must match the glob pattern. -/
def fnmatchB (name pattern : String) : Bool :=
  matchGlobFuel (pattern.data.length + name.data.length + 1) pattern.data name.data

/-! ## `DocumentRule` (`_rules.py`) -/

/-- `mddocproc._rules.DocumentRule`: a transform, an `fnmatch`-style file
filter, and a pass index. The transform may update both the context and the
document, matching how rules mutate them in place. -/
structure DocumentRule where
  function : ProcessingContext → Document → ProcessingContext × Document
  file_filter : String
  pass_index : Nat

/-- `DocumentRule._applies`: shell-glob match of the filter against the
document's input path. -/
def DocumentRule.appliesTo (r : DocumentRule) (document : Document) : Bool :=
  fnmatchB document.input_path r.file_filter

/-- `DocumentRule.__call__`: run the transform only when the filter matches
the document's input path, otherwise leave everything untouched. -/
def DocumentRule.call (r : DocumentRule) (context : ProcessingContext)
    (document : Document) : ProcessingContext × Document :=
  if r.appliesTo document then r.function context document else (context, document)

/-- Claim C8: a rule executes its transform exactly when its shell-glob
filter matches the document's input path; on a non-match the call returns
the context and document unchanged (a total no-op, so it cannot raise); and
the filter decision reads only the input path, so it is unaffected by any
earlier rewriting of `target_path` or `contents`. -/
theorem documentRule_filter_spec (r : DocumentRule) (context : ProcessingContext)
    (d : Document) (t c : String) :
    (fnmatchB d.input_path r.file_filter = true →
      r.call context d = r.function context d) ∧
    (fnmatchB d.input_path r.file_filter = false →
      r.call context d = (context, d)) ∧
    r.appliesTo { d with target_path := t, contents := c } = r.appliesTo d := by
  refine ⟨fun h => ?_, fun h => ?_, rfl⟩
  · simp [DocumentRule.call, DocumentRule.appliesTo, h]
  · simp [DocumentRule.call, DocumentRule.appliesTo, h]

/-- Witness for claim C8: a `*.md`-filtered rule rewrites an `a.md` document
through its transform, and leaves a `notes.txt` document untouched. -/
theorem documentRule_filter_spec_witness :
    (DocumentRule.call
        ⟨fun ctx doc => (ctx, { doc with contents := "X" }), "*.md", 0⟩
        ⟨⟨"", "", "", []⟩, none⟩ ⟨"a.md", "a.md", "y", "y"⟩ =
      (⟨⟨"", "", "", []⟩, none⟩, ⟨"a.md", "a.md", "y", "X"⟩)) ∧
    (DocumentRule.call
        ⟨fun ctx doc => (ctx, { doc with contents := "X" }), "*.md", 0⟩
        ⟨⟨"", "", "", []⟩, none⟩ ⟨"notes.txt", "notes.txt", "y", "y"⟩ =
      (⟨⟨"", "", "", []⟩, none⟩, ⟨"notes.txt", "notes.txt", "y", "y"⟩)) := by
  constructor
  · exact (documentRule_filter_spec
      ⟨fun ctx doc => (ctx, { doc with contents := "X" }), "*.md", 0⟩
      ⟨⟨"", "", "", []⟩, none⟩ ⟨"a.md", "a.md", "y", "y"⟩ "" "").1 (by decide)
  · exact (documentRule_filter_spec
      ⟨fun ctx doc => (ctx, { doc with contents := "X" }), "*.md", 0⟩
      ⟨⟨"", "", "", []⟩, none⟩ ⟨"notes.txt", "notes.txt", "y", "y"⟩ "" "").2.1 (by decide)

/-! ## The macro engine (`_rules.py`) -/

/-- Log events recorded through the module logger, tagged with the macro or
match text they concern. -/
inductive LogEvent where
  | error (what : String)
  | warning (what : String)
deriving DecidableEq, Repr

/-- `_replace_span`: join `contents[:start]`, the replacement, and
`contents[end:]`. -/
def replaceSpan (l : List Char) (start stop : Nat) (r : List Char) : List Char :=
  l.take start ++ r ++ l.drop stop

/-- Word characters of the regex `\w` class (ASCII part). -/
def isWordChar (c : Char) : Bool :=
  c.isAlphanum || c == '_'

/-- Modelled from the spec: `regex_const_macro` lives in `mddocproc/_consts.py`,
which is not part of the sources; the spec describes the constant-macro token
as `${name}` with no arguments, so this parses `$`, `{`, a non-empty run of
word characters, `}` at the head of the list, returning the match length and
the captured name. -/
def tryConstAt (l : List Char) : Option (Nat × List Char) :=
  match l with
  | '$' :: '{' :: r =>
    let name := r.takeWhile isWordChar
    if name.isEmpty then none
    else
      match r.drop name.length with
      | '}' :: _ => some (name.length + 3, name)
      | _ => none
  | _ => none

/-- Leftmost constant-macro match in a character list: `(start, stop, name)`. -/
def findConstMacro : List Char → Option (Nat × Nat × List Char)
  | [] => none
  | c :: r =>
    match tryConstAt (c :: r) with
    | some (len, name) => some (0, len, name)
    | none => (findConstMacro r).map fun x => (x.1 + 1, x.2.1 + 1, x.2.2)

/-- `_get_next_match` specialised to the constant-macro pattern: search in
`contents[pointer:]` and shift the span by the pointer. -/
def findConstMacroFrom (l : List Char) (pointer : Nat) : Option (Nat × Nat × List Char) :=
  (findConstMacro (l.drop pointer)).map fun x =>
    (x.1 + pointer, x.2.1 + pointer, x.2.2)

/-- `_replace_const_macros` as a fuel-driven loop (the Python `while` can run
forever on self-expanding macros, so the fuel bounds how many iterations are
modelled; every claim below is about a single iteration and holds for every
fuel). Returns the final contents and the log events in emission order. -/
def replaceConstMacrosFuel (macros : List (String × MacroVal)) :
    Nat → List Char → Nat → List Char × List LogEvent
  | 0, c, _ => (c, [])
  | fuel + 1, c, pointer =>
    if pointer < c.length then
      match findConstMacroFrom c pointer with
      | none => (c, [])
      | some (start, stop, name) =>
        match macros.lookup (⟨name⟩ : String) with
        | some (.const v) =>
          replaceConstMacrosFuel macros fuel (replaceSpan c start stop v.data) start
        | some (.fn _) =>
          let r := replaceConstMacrosFuel macros fuel c stop
          (r.1, .error (⟨name⟩ : String) :: r.2)
        | none =>
          let r := replaceConstMacrosFuel macros fuel c stop
          (r.1, .warning (⟨name⟩ : String) :: r.2)
    else (c, [])

/-- Claim C3: one iteration of the constant-macro pass, on a match
`${name}` found at span `[start, stop)` from the current pointer. If `name`
maps to a constant string, the span is replaced and scanning continues from
`start` (the start of the replacement); if it maps to a callable, an error is
recorded and scanning continues past the match with the text untouched; if it
is absent, a warning is recorded and scanning continues past the match with
the text untouched. -/
theorem const_macro_step_spec (macros : List (String × MacroVal)) (fuel : Nat)
    (c : List Char) (p start stop : Nat) (name : List Char)
    (hp : p < c.length)
    (hf : findConstMacroFrom c p = some (start, stop, name)) :
    (∀ v, macros.lookup (⟨name⟩ : String) = some (.const v) →
      replaceConstMacrosFuel macros (fuel + 1) c p =
        replaceConstMacrosFuel macros fuel (replaceSpan c start stop v.data) start) ∧
    (∀ f, macros.lookup (⟨name⟩ : String) = some (.fn f) →
      replaceConstMacrosFuel macros (fuel + 1) c p =
        ((replaceConstMacrosFuel macros fuel c stop).1,
          .error (⟨name⟩ : String) :: (replaceConstMacrosFuel macros fuel c stop).2)) ∧
    (macros.lookup (⟨name⟩ : String) = none →
      replaceConstMacrosFuel macros (fuel + 1) c p =
        ((replaceConstMacrosFuel macros fuel c stop).1,
          .warning (⟨name⟩ : String) :: (replaceConstMacrosFuel macros fuel c stop).2)) := by
  refine ⟨fun v hv => ?_, fun f hfn => ?_, fun hn => ?_⟩
  · simp [replaceConstMacrosFuel, hp, hf, hv]
  · simp [replaceConstMacrosFuel, hp, hf, hfn]
  · simp [replaceConstMacrosFuel, hp, hf, hn]

/-- Sample macro table used by the macro-engine witnesses: one constant, one
callable (`upper` succeeds only on exactly one argument, modelling a Python
function of one parameter whose call raises on an arity mismatch). -/
def sampleMacros : List (String × MacroVal) :=
  [("author", .const "XY"),
   ("upper", .fn fun args =>
      match args with
      | [x] => some ⟨x.data.map Char.toUpper⟩
      | _ => none)]

/-- Witness for claim C3: the three branches evaluated on concrete
documents against `sampleMacros`. -/
theorem const_macro_step_spec_witness :
    (replaceConstMacrosFuel sampleMacros 1 "${author}".data 0 =
      replaceConstMacrosFuel sampleMacros 0 (replaceSpan "${author}".data 0 9 "XY".data) 0) ∧
    (replaceConstMacrosFuel sampleMacros 1 "${upper}".data 0 =
      ((replaceConstMacrosFuel sampleMacros 0 "${upper}".data 8).1,
        .error "upper" :: (replaceConstMacrosFuel sampleMacros 0 "${upper}".data 8).2)) ∧
    (replaceConstMacrosFuel sampleMacros 1 "${zz}".data 0 =
      ((replaceConstMacrosFuel sampleMacros 0 "${zz}".data 5).1,
        .warning "zz" :: (replaceConstMacrosFuel sampleMacros 0 "${zz}".data 5).2)) := by
  refine ⟨?_, ?_, ?_⟩
  · exact (const_macro_step_spec sampleMacros 0 "${author}".data 0 0 9 "author".data
      (by decide) (by decide)).1 "XY" rfl
  · exact (const_macro_step_spec sampleMacros 0 "${upper}".data 0 0 8 "upper".data
      (by decide) (by decide)).2.1 _ rfl
  · exact (const_macro_step_spec sampleMacros 0 "${zz}".data 0 0 5 "zz".data
      (by decide) (by decide)).2.2 rfl

/-- Modelled from the spec: `regex_function_macro` lives in
`mddocproc/_consts.py`, which is not part of the sources; the spec describes
the call-form token as `${name(arg1, arg2, ...)}` with the argument list
captured as a group, so this parses `$`, `{`, a non-empty word-character
name, `(`, a run of non-`)` characters, `)`, `}` at the head of the list. -/
def tryFnAt (l : List Char) : Option (Nat × List Char × List Char) :=
  match l with
  | '$' :: '{' :: r =>
    let name := r.takeWhile isWordChar
    if name.isEmpty then none
    else
      match r.drop name.length with
      | '(' :: r2 =>
        let args := r2.takeWhile (fun c => ¬(c == ')'))
        match r2.drop args.length with
        | ')' :: '}' :: _ => some (name.length + args.length + 5, name, args)
        | _ => none
      | _ => none
  | _ => none

/-- Leftmost function-macro match: `(start, stop, name, argstring)`. -/
def findFnMacro : List Char → Option (Nat × Nat × List Char × List Char)
  | [] => none
  | c :: r =>
    match tryFnAt (c :: r) with
    | some (len, name, args) => some (0, len, name, args)
    | none => (findFnMacro r).map fun x => (x.1 + 1, x.2.1 + 1, x.2.2)

/-- `_get_next_match` specialised to the function-macro pattern. -/
def findFnMacroFrom (l : List Char) (pointer : Nat) :
    Option (Nat × Nat × List Char × List Char) :=
  (findFnMacro (l.drop pointer)).map fun x =>
    (x.1 + pointer, x.2.1 + pointer, x.2.2)

/-- `_run_function_macro`: invoke the named macro on the parsed arguments.
Success returns `(True, value)` with no log; a raising call (modelled by the
callable returning `none`, which covers arity mismatches) logs an error and
returns `(False, None)`; a non-callable value logs an error and returns
`(False, None)`. The lookup-miss branch is unreachable because the caller
checks membership first. -/
def run_function_macro (macros : List (String × MacroVal)) (functionName : String)
    (args : List String) : (Bool × Option String) × List LogEvent :=
  match macros.lookup functionName with
  | some (.fn f) =>
    match f args with
    | some v => ((true, some v), [])
    | none => ((false, none), [.error functionName])
  | some (.const _) => ((false, none), [.error functionName])
  | none => ((false, none), [])

/-- `_replace_function_macros` as a fuel-driven loop: on a successful
invocation the span is replaced and the pointer resets to the match start,
otherwise the text is untouched and the pointer advances past the match;
unknown names get a warning. -/
def replaceFnMacrosFuel (macros : List (String × MacroVal)) :
    Nat → List Char → Nat → List Char × List LogEvent
  | 0, c, _ => (c, [])
  | fuel + 1, c, pointer =>
    if pointer < c.length then
      match findFnMacroFrom c pointer with
      | none => (c, [])
      | some (start, stop, name, argstr) =>
        if (macros.lookup (⟨name⟩ : String)).isSome then
          match run_function_macro macros (⟨name⟩ : String) (extract_args ⟨argstr⟩) with
          | ((true, some v), evs) =>
            let r := replaceFnMacrosFuel macros fuel (replaceSpan c start stop v.data) start
            (r.1, evs ++ r.2)
          | ((_, _), evs) =>
            let r := replaceFnMacrosFuel macros fuel c stop
            (r.1, evs ++ r.2)
        else
          let r := replaceFnMacrosFuel macros fuel c stop
          (r.1, .warning (⟨name⟩ : String) :: r.2)
    else (c, [])

/-- Claim C4: one iteration of the function-macro pass on a match whose name
is bound to a callable in the macro table. If the invocation raises
(modelled by `none`, covering arity mismatches), the text is left untouched,
an error is recorded, and scanning continues past the match; on success the
span is replaced by the returned string and scanning resumes at the start of
the replacement. -/
theorem function_macro_step_spec (macros : List (String × MacroVal)) (fuel : Nat)
    (c : List Char) (p start stop : Nat) (name argstr : List Char)
    (f : List String → Option String)
    (hp : p < c.length)
    (hf : findFnMacroFrom c p = some (start, stop, name, argstr))
    (hl : macros.lookup (⟨name⟩ : String) = some (.fn f)) :
    (f (extract_args ⟨argstr⟩) = none →
      replaceFnMacrosFuel macros (fuel + 1) c p =
        ((replaceFnMacrosFuel macros fuel c stop).1,
          .error (⟨name⟩ : String) :: (replaceFnMacrosFuel macros fuel c stop).2)) ∧
    (∀ v, f (extract_args ⟨argstr⟩) = some v →
      replaceFnMacrosFuel macros (fuel + 1) c p =
        replaceFnMacrosFuel macros fuel (replaceSpan c start stop v.data) start) := by
  constructor
  · intro hraise
    simp [replaceFnMacrosFuel, hp, hf, hl, run_function_macro, hraise]
  · intro v hv
    simp [replaceFnMacrosFuel, hp, hf, hl, run_function_macro, hv]

/-- Witness for claim C4: against `sampleMacros`, `${upper(hi)}` succeeds and
is replaced with rescanning from the match start, while the arity-mismatched
`${upper(hi,there)}` is left untouched with an error recorded. -/
theorem function_macro_step_spec_witness :
    (replaceFnMacrosFuel sampleMacros 1 "${upper(hi,there)}".data 0 =
      ((replaceFnMacrosFuel sampleMacros 0 "${upper(hi,there)}".data 18).1,
        .error "upper" :: (replaceFnMacrosFuel sampleMacros 0 "${upper(hi,there)}".data 18).2)) ∧
    (replaceFnMacrosFuel sampleMacros 1 "${upper(hi)}".data 0 =
      replaceFnMacrosFuel sampleMacros 0 (replaceSpan "${upper(hi)}".data 0 12 "HI".data) 0) := by
  constructor
  · exact (function_macro_step_spec sampleMacros 0 "${upper(hi,there)}".data 0 0 18
      "upper".data "hi,there".data _ (by decide) (by decide) rfl).1 (by decide)
  · exact (function_macro_step_spec sampleMacros 0 "${upper(hi)}".data 0 0 12
      "upper".data "hi".data _ (by decide) (by decide) rfl).2 "HI" (by decide)

/-! ## Model of `urllib.parse.unquote` -/

/-- Value of a hexadecimal digit character, if any. -/
def hexVal (c : Char) : Option Nat :=
  if '0' ≤ c ∧ c ≤ '9' then some (c.toNat - '0'.toNat)
  else if 'a' ≤ c ∧ c ≤ 'f' then some (c.toNat - 'a'.toNat + 10)
  else if 'A' ≤ c ∧ c ≤ 'F' then some (c.toNat - 'A'.toNat + 10)
  else none

/-- UTF-8 decoding of a byte list with the `replace` error handler: each
maximal invalid subpart becomes one U+FFFD. Fuel-driven so the kernel can
evaluate it; `bytes.length` fuel always suffices. -/
def utf8DecodeReplaceFuel : Nat → List Nat → List Char
  | 0, _ => []
  | _, [] => []
  | fuel + 1, b :: rest =>
    if b < 0x80 then Char.ofNat b :: utf8DecodeReplaceFuel fuel rest
    else if b < 0xC2 then '�' :: utf8DecodeReplaceFuel fuel rest
    else if b < 0xE0 then
      match rest with
      | c1 :: r =>
        if 0x80 ≤ c1 ∧ c1 < 0xC0 then
          Char.ofNat ((b - 0xC0) * 0x40 + (c1 - 0x80)) :: utf8DecodeReplaceFuel fuel r
        else '�' :: utf8DecodeReplaceFuel fuel rest
      | [] => ['�']
    else if b < 0xF0 then
      match rest with
      | c1 :: r =>
        if (if b = 0xE0 then 0xA0 else 0x80) ≤ c1 ∧ c1 < (if b = 0xED then 0xA0 else 0xC0) then
          match r with
          | c2 :: r2 =>
            if 0x80 ≤ c2 ∧ c2 < 0xC0 then
              Char.ofNat ((b - 0xE0) * 0x1000 + (c1 - 0x80) * 0x40 + (c2 - 0x80)) ::
                utf8DecodeReplaceFuel fuel r2
            else '�' :: utf8DecodeReplaceFuel fuel r
          | [] => ['�']
        else '�' :: utf8DecodeReplaceFuel fuel rest
      | [] => ['�']
    else if b < 0xF5 then
      match rest with
      | c1 :: r =>
        if (if b = 0xF0 then 0x90 else 0x80) ≤ c1 ∧ c1 < (if b = 0xF4 then 0x90 else 0xC0) then
          match r with
          | c2 :: r2 =>
            if 0x80 ≤ c2 ∧ c2 < 0xC0 then
              match r2 with
              | c3 :: r3 =>
                if 0x80 ≤ c3 ∧ c3 < 0xC0 then
                  Char.ofNat ((b - 0xF0) * 0x40000 + (c1 - 0x80) * 0x1000 +
                      (c2 - 0x80) * 0x40 + (c3 - 0x80)) :: utf8DecodeReplaceFuel fuel r3
                else '�' :: utf8DecodeReplaceFuel fuel r2
              | [] => ['�']
            else '�' :: utf8DecodeReplaceFuel fuel r
          | [] => ['�']
        else '�' :: utf8DecodeReplaceFuel fuel rest
      | [] => ['�']
    else '�' :: utf8DecodeReplaceFuel fuel rest

/-- Collect the maximal run of `%XX` escapes (two hexadecimal digits each)
at the head of the list, returning the decoded bytes and the remainder. -/
def collectPctBytes : Nat → List Char → List Nat × List Char
  | 0, l => ([], l)
  | fuel + 1, l =>
    match l with
    | '%' :: h1 :: h2 :: r =>
      match hexVal h1, hexVal h2 with
      | some a, some b =>
        let x := collectPctBytes fuel r
        ((a * 16 + b) :: x.1, x.2)
      | _, _ => ([], l)
    | _ => ([], l)

/-- Model of `urllib.parse.unquote` with the default UTF-8 `replace`
handling: each maximal run of `%XX` escapes is decoded as a UTF-8 byte
sequence; a `%` not followed by two hexadecimal digits is literal. -/
def unquoteFuel : Nat → List Char → List Char
  | 0, l => l
  | _, [] => []
  | fuel + 1, '%' :: h1 :: h2 :: r =>
    match hexVal h1, hexVal h2 with
    | some a, some b =>
      let x := collectPctBytes (r.length + 1) r
      utf8DecodeReplaceFuel (x.1.length + 1) ((a * 16 + b) :: x.1) ++ unquoteFuel fuel x.2
    | _, _ => '%' :: unquoteFuel fuel (h1 :: h2 :: r)
  | fuel + 1, '%' :: r => '%' :: unquoteFuel fuel r
  | fuel + 1, c :: r => c :: unquoteFuel fuel r

/-- `urllib.parse.unquote` on a character list. -/
def unquoteL (l : List Char) : List Char :=
  unquoteFuel (l.length + 1) l

/-! ## The link sanitizer (`_rules.py`) -/

/-- Lexical normalisation of the path components of a joined path:
drop empty and `.` components and let `..` pop (stopping at the root). -/
def resolveComponents (parts : List String) : List String :=
  parts.foldl
    (fun acc p =>
      if p = "" ∨ p = "." then acc
      else if p = ".." then acc.dropLast
      else acc ++ [p])
    []

/-- Model of `Path(parent).joinpath(link).resolve()` for an absolute
`parent`: join (an absolute `link` replaces `parent`, an empty `link` is
ignored) and normalise lexically; symbolic links are not modelled, matching
`resolve()` on paths that need not exist. -/
def resolvePath (parent link : String) : String :=
  let joined :=
    if startsWithS link "/" then link
    else if link = "" then parent
    else parent ++ "/" ++ link
  "/" ++ String.intercalate "/"
    (resolveComponents ((pySplitChar '/' joined.data).map (fun l => (⟨l⟩ : String))))

/-- Model of `pathlib.PurePath.parent`: the directory part of the path, `.`
when there is none. -/
def pathParent (p : String) : String :=
  let d := dirname p
  if d = "" then "." else d

/-- Modelled from the spec: `regex_markdown_link` lives in
`mddocproc/_consts.py`, which is not part of the sources; the spec describes
the pattern as markdown link syntax `[text](target)` where the target may be
wrapped in angle brackets. This parses `[`, text up to `]`, `(`, an optional
`<`, a target free of `)`/`>`, an optional `>`, `)` at the head of the list,
returning the captured text, the captured target (brackets stripped) and the
remainder after the match. -/
def tryLinkAt (l : List Char) : Option (List Char × List Char × List Char) :=
  match l with
  | '[' :: r1 =>
    let text := r1.takeWhile (fun c => ¬(c == ']'))
    match r1.drop text.length with
    | ']' :: '(' :: r2 =>
      let r3 := match r2 with | '<' :: r => r | _ => r2
      let link := r3.takeWhile (fun c => ¬(c == ')') && ¬(c == '>'))
      match r3.drop link.length with
      | '>' :: ')' :: rest => some (text, link, rest)
      | ')' :: rest => some (text, link, rest)
      | _ => none
    | _ => none
  | _ => none

/-- Leftmost markdown-link match: `(start, stop, text, target)`, the match
end computed from the remainder returned by `tryLinkAt`. -/
def findLink : List Char → Option (Nat × Nat × List Char × List Char)
  | [] => none
  | c :: r =>
    match tryLinkAt (c :: r) with
    | some (text, link, rest) => some (0, (c :: r).length - rest.length, text, link)
    | none => (findLink r).map fun x => (x.1 + 1, x.2.1 + 1, x.2.2)

/-- `_get_next_match` specialised to the markdown-link pattern. -/
def findLinkFrom (l : List Char) (pointer : Nat) :
    Option (Nat × Nat × List Char × List Char) :=
  (findLink (l.drop pointer)).map fun x =>
    (x.1 + pointer, x.2.1 + pointer, x.2.2)

/-- The canonical rewrite `[text](<link>)` built by the sanitizer. -/
def linkRewrite (text link : List Char) : List Char :=
  '[' :: text ++ ']' :: '(' :: '<' :: link ++ ['>', ')']

/-- `santize_internal_links`' scan loop (the document's directory and the
set of paths existing on disk are explicit parameters): the pointer always
advances past the match, and a match whose decoded target resolves to an
existing path is replaced by the canonical rewrite. -/
def sanitizeLinksFuel (onDisk : String → Bool) (parentDir : String) :
    Nat → List Char → Nat → List Char
  | 0, c, _ => c
  | fuel + 1, c, pointer =>
    if pointer < c.length then
      match findLinkFrom c pointer with
      | none => c
      | some (start, stop, text, link) =>
        let decoded := unquoteL link
        if onDisk (resolvePath parentDir (⟨decoded⟩ : String)) then
          sanitizeLinksFuel onDisk parentDir fuel
            (replaceSpan c start stop (linkRewrite text decoded)) stop
        else
          sanitizeLinksFuel onDisk parentDir fuel c stop
    else c

/-- `mddocproc._rules.santize_internal_links` (source spelling kept): rewrite
each internal link of the document's contents in place. -/
def santize_internal_links (onDisk : String → Bool) (document : Document) : Document :=
  { document with
    contents :=
      ⟨sanitizeLinksFuel onDisk (pathParent document.input_path)
        (document.contents.data.length + 1) document.contents.data 0⟩ }

/-- Claim C5: one iteration of the link sanitizer on a match
`[text](target)` at span `[start, stop)`. If the percent-decoded target,
resolved against the directory containing the document's input path, exists
on disk, the whole span is rewritten to `[text](<decoded>)` with the text
preserved; otherwise (external URLs in particular) the match is left
untouched. In both cases scanning continues past the match. -/
theorem sanitize_link_step_spec (onDisk : String → Bool) (parentDir : String)
    (fuel : Nat) (c : List Char) (p start stop : Nat) (text link : List Char)
    (hp : p < c.length)
    (hf : findLinkFrom c p = some (start, stop, text, link)) :
    (onDisk (resolvePath parentDir (⟨unquoteL link⟩ : String)) = true →
      sanitizeLinksFuel onDisk parentDir (fuel + 1) c p =
        sanitizeLinksFuel onDisk parentDir fuel
          (replaceSpan c start stop (linkRewrite text (unquoteL link))) stop) ∧
    (onDisk (resolvePath parentDir (⟨unquoteL link⟩ : String)) = false →
      sanitizeLinksFuel onDisk parentDir (fuel + 1) c p =
        sanitizeLinksFuel onDisk parentDir fuel c stop) := by
  constructor
  · intro hd
    simp [sanitizeLinksFuel, hp, hf, hd]
  · intro hd
    simp [sanitizeLinksFuel, hp, hf, hd]

/-- Sample disk used by the link-sanitizer witnesses: exactly `/d/a.md`
exists. -/
def sampleDisk : String → Bool := fun s => s == "/d/a.md"

/-- Witness for claim C5: under `sampleDisk`, the relative link `a.md` in a
document at `/d/t.md` is rewritten to angle-bracket form, and the external
link `https://www.google.com` is untouched. -/
theorem sanitize_link_step_spec_witness :
    (sanitizeLinksFuel sampleDisk "/d" 1 "[t](a.md)".data 0 =
      sanitizeLinksFuel sampleDisk "/d" 0
        (replaceSpan "[t](a.md)".data 0 9 (linkRewrite "t".data (unquoteL "a.md".data))) 9) ∧
    (sanitizeLinksFuel sampleDisk "/d" 1 "[t](https://www.google.com)".data 0 =
      sanitizeLinksFuel sampleDisk "/d" 0 "[t](https://www.google.com)".data 27) := by
  constructor
  · exact (sanitize_link_step_spec sampleDisk "/d" 0 "[t](a.md)".data 0 0 9
      "t".data "a.md".data (by decide) (by decide)).1 (by decide)
  · exact (sanitize_link_step_spec sampleDisk "/d" 0 "[t](https://www.google.com)".data 0 0 27
      "t".data "https://www.google.com".data (by decide) (by decide)).2 (by decide)

theorem findLink_bounds :
    ∀ (l : List Char) (s e : Nat) (t k : List Char),
      findLink l = some (s, e, t, k) → s ≤ e ∧ e ≤ l.length := by
  intro l
  induction l with
  | nil => intro s e t k h; simp [findLink] at h
  | cons c r ih =>
    intro s e t k h
    rw [findLink] at h
    cases htry : tryLinkAt (c :: r) with
    | some x =>
      obtain ⟨t', k', rest⟩ := x
      rw [htry] at h
      simp only [Option.some.injEq, Prod.mk.injEq] at h
      obtain ⟨hs, he, _⟩ := h
      refine ⟨by omega, ?_⟩
      rw [← he]
      exact Nat.sub_le _ _
    | none =>
      rw [htry] at h
      cases hr : findLink r with
      | none => rw [hr] at h; simp at h
      | some y =>
        obtain ⟨s', e', t', k'⟩ := y
        rw [hr] at h
        simp only [Option.map, Option.some.injEq, Prod.mk.injEq] at h
        obtain ⟨hs, he, _, _⟩ := h
        have hb := ih s' e' t' k' hr
        simp only [List.length_cons]
        omega

theorem findLinkFrom_bounds (l : List Char) (p s e : Nat) (t k : List Char)
    (hp : p ≤ l.length) (h : findLinkFrom l p = some (s, e, t, k)) :
    s ≤ e ∧ e ≤ l.length := by
  rw [findLinkFrom] at h
  cases hf : findLink (l.drop p) with
  | none => rw [hf] at h; simp at h
  | some y =>
    obtain ⟨s', e', t', k'⟩ := y
    rw [hf] at h
    simp only [Option.map, Option.some.injEq, Prod.mk.injEq] at h
    obtain ⟨hs, he', _, _⟩ := h
    have hb := findLink_bounds (l.drop p) s' e' t' k' hf
    rw [List.length_drop] at hb
    omega

theorem replaceSpan_slice (l : List Char) (s e : Nat) (hse : s ≤ e) (_he : e ≤ l.length) :
    replaceSpan l s e ((l.drop s).take (e - s)) = l := by
  unfold replaceSpan
  have hd : l.drop e = (l.drop s).drop (e - s) := by
    rw [List.drop_drop]
    congr 1
    omega
  rw [List.append_assoc, hd, List.take_append_drop, List.take_append_drop]

/-- A contents buffer is link-canonical when every markdown-link match whose
decoded target exists on disk already reads exactly as its canonical rewrite
`[text](<decoded>)`, so that the sanitizer replaces it by itself. -/
def linkCanonicalB (onDisk : String → Bool) (parentDir : String) (c : List Char) : Bool :=
  (List.range c.length).all fun p =>
    match findLinkFrom c p with
    | none => true
    | some (s, e, t, k) =>
      if onDisk (resolvePath parentDir (⟨unquoteL k⟩ : String)) then
        linkRewrite t (unquoteL k) == (c.drop s).take (e - s)
      else true

theorem sanitizeLinksFuel_canonical_id (onDisk : String → Bool) (parentDir : String)
    (c : List Char) (hc : linkCanonicalB onDisk parentDir c = true) :
    ∀ fuel p, sanitizeLinksFuel onDisk parentDir fuel c p = c := by
  intro fuel
  induction fuel with
  | zero => intro p; rfl
  | succ n ih =>
    intro p
    by_cases hp : p < c.length
    · cases hfind : findLinkFrom c p with
      | none => simp [sanitizeLinksFuel, hp, hfind]
      | some x =>
        obtain ⟨s, e, t, k⟩ := x
        have hb := findLinkFrom_bounds c p s e t k (le_of_lt hp) hfind
        have hall := List.all_eq_true.mp hc p (List.mem_range.mpr hp)
        simp only at hall
        rw [hfind] at hall
        by_cases hd : onDisk (resolvePath parentDir (⟨unquoteL k⟩ : String)) = true
        · simp only [hd, if_true] at hall
          have heq : linkRewrite t (unquoteL k) = (c.drop s).take (e - s) :=
            eq_of_beq hall
          have hstep : sanitizeLinksFuel onDisk parentDir (n + 1) c p =
              sanitizeLinksFuel onDisk parentDir n
                (replaceSpan c s e (linkRewrite t (unquoteL k))) e := by
            simp [sanitizeLinksFuel, hp, hfind, hd]
          rw [hstep, heq, replaceSpan_slice c s e hb.1 hb.2]
          exact ih e
        · have hstep : sanitizeLinksFuel onDisk parentDir (n + 1) c p =
              sanitizeLinksFuel onDisk parentDir n c e := by
            simp [sanitizeLinksFuel, hp, hfind, hd]
          rw [hstep]
          exact ih e
    · simp [sanitizeLinksFuel, hp]

/-- Disk for the idempotence counterexample: both `/d/%25` and `/d/%`
exist. -/
def pctDisk : String → Bool := fun s => s == "/d/%25" || s == "/d/%"

/-- Document for the idempotence counterexample: a link whose target is the
double-encoded `%2525`. -/
def pctDoc : Document :=
  ⟨"/d/t.md", "/d/t.md", "[t](%2525)", "[t](%2525)"⟩

/-- Counterexample to claim C6 as stated: with the fixed disk `pctDisk`, one
application of the sanitizer turns `[t](%2525)` into `[t](<%25>)` and a
second application decodes the target again to `[t](<%>)`, so applying the
rule twice differs from applying it once. -/
theorem sanitize_not_idempotent :
    (santize_internal_links pctDisk pctDoc).contents = "[t](<%25>)" ∧
    (santize_internal_links pctDisk (santize_internal_links pctDisk pctDoc)).contents =
      "[t](<%>)" ∧
    santize_internal_links pctDisk (santize_internal_links pctDisk pctDoc) ≠
      santize_internal_links pctDisk pctDoc := by
  refine ⟨by decide, by decide, by decide⟩

/-- Claim C6 as amended: link sanitization applied twice agrees with one
application on every document whose once-sanitized contents are
link-canonical, i.e. whose remaining matches with existing decoded targets
are already in the exact canonical form (the counterexample shows this
fails precisely when a decoded target can be percent-decoded further). -/
theorem sanitize_idempotent_of_canonical (onDisk : String → Bool) (d : Document)
    (h : linkCanonicalB onDisk (pathParent d.input_path)
        (santize_internal_links onDisk d).contents.data = true) :
    santize_internal_links onDisk (santize_internal_links onDisk d) =
      santize_internal_links onDisk d := by
  have hid := sanitizeLinksFuel_canonical_id onDisk (pathParent d.input_path)
    (santize_internal_links onDisk d).contents.data h
    ((santize_internal_links onDisk d).contents.data.length + 1) 0
  conv_lhs => rw [santize_internal_links]
  have hparent : pathParent (santize_internal_links onDisk d).input_path =
      pathParent d.input_path := rfl
  rw [hparent, hid]

/-- Document for the amended-idempotence witness. -/
def sampleLinkDoc : Document :=
  ⟨"/d/t.md", "/d/t.md", "[x](a.md)", "[x](a.md)"⟩

/-- Witness for the amended claim C6 on a concrete canonical document. -/
theorem sanitize_idempotent_of_canonical_witness :
    santize_internal_links sampleDisk (santize_internal_links sampleDisk sampleLinkDoc) =
      santize_internal_links sampleDisk sampleLinkDoc :=
  sanitize_idempotent_of_canonical sampleDisk sampleLinkDoc (by decide)

/-! ## The table-of-contents generator (`_rules.py`) -/

/-- Lines of a contents string, split on newlines (Python `split("\n")`). -/
def splitLines (s : String) : List String :=
  (pySplitChar '\n' s.data).map (fun l => (⟨l⟩ : String))

/-- `_calculate_toc_indent_for_heading`: twice the number of leading `#`
characters minus one, floored at zero (Python `max(0, ...)` is the truncated
natural subtraction here). -/
def calculate_toc_indent_for_heading (line : String) : Nat :=
  (line.data.length - (line.data.dropWhile (fun c => c == '#')).length - 1) * 2

/-- Modelled from the spec: `format_markdown_link` lives in
`mddocproc/_utils.py`, which is not part of the sources; the spec says a
table entry links to the heading using the title both as link text and as a
same-document anchor target, in the sanitizer's canonical angle-bracket
form. -/
def format_markdown_link (text target : String) : String :=
  "[" ++ text ++ "](<" ++ target ++ ">)"

/-- `_create_toc_from_sections`: collect `(indent, entry)` pairs for each
stripped line that starts with `#`, then emit all entries shifted left by
the smallest indent. -/
def create_toc_from_sections (lines : List String) : String :=
  let table_entries := lines.filterMap fun line =>
    let l := pyStrip line
    if startsWithS l "#" then
      let stripped := pyStrip (⟨l.data.dropWhile (fun c => c == '#')⟩ : String)
      some (calculate_toc_indent_for_heading l,
        " - " ++ format_markdown_link stripped ("#" ++ stripped))
    else none
  let smallest_indent :=
    match table_entries.map Prod.fst with
    | [] => 0
    | x :: xs => xs.foldl min x
  String.intercalate "\n" (table_entries.map fun e =>
    (⟨List.replicate (e.1 - smallest_indent) ' '⟩ : String) ++ e.2)

/-- The placeholder token `TABLE_OF_CONTENTS_VARIABLE`. -/
def TABLE_OF_CONTENTS_VARIABLE : String := "${create_table_of_contents}"

/-- `create_table_of_contents`: replace the placeholder on each line that
contains it by the table generated from the lines after that line. -/
def create_table_of_contents (document : Document) : Document :=
  let lines := splitLines document.contents
  let processed := lines.enum.map fun il =>
    if containsSub TABLE_OF_CONTENTS_VARIABLE il.2 then
      replaceAll TABLE_OF_CONTENTS_VARIABLE
        (create_toc_from_sections (lines.drop (il.1 + 1))) il.2
    else il.2
  { document with contents := String.intercalate "\n" processed }

/-- Specification-side description of the generated table for claim C9,
written from the spec's words (to be compared with
`create_toc_from_sections`): each heading line contributes one entry whose
indent is twice its zero-based depth — the count of leading `#` characters
minus one, floored at zero — whose title (stripped of the leading `#`
markers and surrounding whitespace) is used as both link text and anchor
target, and every entry is shifted left by the minimum indent. -/
def tocSpecModel (ls : List String) : String :=
  let entries := ls.filterMap fun line =>
    let l := pyStrip line
    if startsWithS l "#" then
      let title := pyStrip (⟨l.data.dropWhile (fun c => c == '#')⟩ : String)
      some (2 * ((l.data.takeWhile (fun c => c == '#')).length - 1),
        " - " ++ format_markdown_link title ("#" ++ title))
    else none
  let smallest :=
    match entries.map Prod.fst with
    | [] => 0
    | x :: xs => xs.foldl min x
  String.intercalate "\n" (entries.map fun e =>
    (⟨List.replicate (e.1 - smallest) ' '⟩ : String) ++ e.2)

/-- Claim C9: the table substituted for each placeholder occurrence is built
from exactly the lines after the placeholder's line, and it equals the
spec-side description `tocSpecModel`: one entry per heading line, indent
twice the zero-based depth, title as link text and anchor, all shifted left
by the minimum indent. -/
theorem create_toc_spec (document : Document) :
    (create_table_of_contents document).contents =
      String.intercalate "\n" ((splitLines document.contents).enum.map fun il =>
        if containsSub TABLE_OF_CONTENTS_VARIABLE il.2 then
          replaceAll TABLE_OF_CONTENTS_VARIABLE
            (tocSpecModel ((splitLines document.contents).drop (il.1 + 1))) il.2
        else il.2) := by
  have hlen : ∀ (l : List Char), (l.takeWhile (fun c => c == '#')).length =
      l.length - (l.dropWhile (fun c => c == '#')).length := by
    intro l
    have h := congrArg List.length (List.takeWhile_append_dropWhile
      (p := fun c => c == '#') (l := l))
    rw [List.length_append] at h
    omega
  have htoc : ∀ (ls : List String), create_toc_from_sections ls = tocSpecModel ls := by
    intro ls
    unfold create_toc_from_sections tocSpecModel
    have hent : (fun line => (
        let l := pyStrip line
        if startsWithS l "#" then
          let stripped := pyStrip (⟨l.data.dropWhile (fun c => c == '#')⟩ : String)
          some (calculate_toc_indent_for_heading l,
            " - " ++ format_markdown_link stripped ("#" ++ stripped))
        else none : Option (Nat × String))) =
        (fun line => (
        let l := pyStrip line
        if startsWithS l "#" then
          let title := pyStrip (⟨l.data.dropWhile (fun c => c == '#')⟩ : String)
          some (2 * ((l.data.takeWhile (fun c => c == '#')).length - 1),
            " - " ++ format_markdown_link title ("#" ++ title))
        else none : Option (Nat × String))) := by
      funext line
      simp only [calculate_toc_indent_for_heading, hlen, Nat.mul_comm]
    rw [hent]
  simp only [create_table_of_contents, htoc]

/-! ## Model of `difflib` (CPython): `SequenceMatcher` with `isjunk=None`
and `unified_diff` with default arguments, as used by `Document.changes` -/

/-- Python slice `l[i:j]` on a list. -/
def sliceList (l : List String) (i j : Nat) : List String :=
  (l.drop i).take (j - i)

/-- `b2j.setdefault(elt, []).append(i)`: append an index to the entry of a
key, keeping insertion order. -/
def b2jInsert (m : List (String × List Nat)) (k : String) (v : Nat) :
    List (String × List Nat) :=
  match m with
  | [] => [(k, [v])]
  | (k', vs) :: rest =>
    if k' = k then (k', vs ++ [v]) :: rest else (k', vs) :: b2jInsert rest k v

/-- `SequenceMatcher.__chain_b` for `isjunk=None`: map each element of `b` to
its ascending index list, then (autojunk) purge popular elements when `b`
has at least 200 elements. -/
def chainB (b : List String) : List (String × List Nat) :=
  let b2j := b.enum.foldl (fun m iv => b2jInsert m iv.2 iv.1) []
  if b.length ≥ 200 then
    let ntest := b.length / 100 + 1
    b2j.filter (fun kv => ¬(kv.2.length > ntest))
  else b2j

/-- Inner loop of `find_longest_match` for one `i`: walk the indices of
`a[i]` inside `[blo, bhi)` (the list is ascending, so the `continue`/`break`
pair is a filter), building the new `j2len` table and updating the best
match; `j2len.get(j-1, 0)` is `0` when `j = 0` (Python's `-1` misses the
dictionary). -/
def flmScan (j2len : List (Nat × Nat)) (i : Nat) (js : List Nat)
    (best : Nat × Nat × Nat) : (Nat × Nat × Nat) × List (Nat × Nat) :=
  js.foldl
    (fun acc j =>
      let k := (if j = 0 then 0 else ((j2len.lookup (j - 1)).getD 0)) + 1
      let best' := if k > acc.1.2.2 then (i + 1 - k, j + 1 - k, k) else acc.1
      (best', (j, k) :: acc.2))
    (best, [])

/-- Main loop of `find_longest_match`: the longest junk-free match of
`a[alo:ahi]` and `b[blo:bhi]`, before the extension loops. -/
def flmMain (a : List String) (b2j : List (String × List Nat))
    (alo ahi blo bhi : Nat) : Nat × Nat × Nat :=
  ((List.range' alo (ahi - alo)).foldl
    (fun acc i =>
      let js := ((b2j.lookup (a.getD i "")).getD []).filter
        (fun j => blo ≤ j && j < bhi)
      flmScan acc.2 i js acc.1)
    ((alo, blo, 0), ([] : List (Nat × Nat)))).1

/-- First extension loop of `find_longest_match` (the junk set is empty for
`isjunk=None`): extend the best match leftwards over equal elements; the
first argument is `besti`, on which the recursion is structural. -/
def extendLeft (a b : List String) (alo blo : Nat) : Nat → Nat → Nat
  | 0, _ => 0
  | i + 1, j =>
    if alo < i + 1 ∧ blo < j ∧ a.getD i "" = b.getD (j - 1) "" then
      extendLeft a b alo blo i (j - 1) + 1
    else 0

/-- Second extension loop of `find_longest_match`: extend rightwards over
equal elements; the fuel `ahi - (besti + bestsize)` bounds the loop exactly,
because each step needs `i < ahi`. -/
def extendRight (a b : List String) (ahi bhi : Nat) : Nat → Nat → Nat → Nat
  | 0, _, _ => 0
  | fuel + 1, i, j =>
    if i < ahi ∧ j < bhi ∧ a.getD i "" = b.getD j "" then
      extendRight a b ahi bhi fuel (i + 1) (j + 1) + 1
    else 0

/-- `SequenceMatcher.find_longest_match` (with the empty junk set, the last
two extension loops of the source never run). -/
def find_longest_match (a b : List String) (b2j : List (String × List Nat))
    (alo ahi blo bhi : Nat) : Nat × Nat × Nat :=
  let best := flmMain a b2j alo ahi blo bhi
  let dl := extendLeft a b alo blo best.1 best.2.1
  let besti := best.1 - dl
  let bestj := best.2.1 - dl
  let bestsize := best.2.2 + dl
  let dr := extendRight a b ahi bhi (ahi - (besti + bestsize))
    (besti + bestsize) (bestj + bestsize)
  (besti, bestj, bestsize + dr)

/-- `get_matching_blocks`' divide-and-conquer (the source uses an explicit
queue plus a final sort, which yields the blocks in this in-order
arrangement): the fuel bounds the recursion depth, `la + lb + 1` always
suffices since every sub-problem is strictly smaller. -/
def mbRec (a b : List String) (b2j : List (String × List Nat)) :
    Nat → Nat → Nat → Nat → Nat → List (Nat × Nat × Nat)
  | 0, _, _, _, _ => []
  | fuel + 1, alo, ahi, blo, bhi =>
    let x := find_longest_match a b b2j alo ahi blo bhi
    let i := x.1
    let j := x.2.1
    let k := x.2.2
    if k ≠ 0 then
      (if alo < i ∧ blo < j then mbRec a b b2j fuel alo i blo j else []) ++
        ((i, j, k) ::
          (if i + k < ahi ∧ j + k < bhi then mbRec a b b2j fuel (i + k) ahi (j + k) bhi
           else []))
    else []

/-- Collapse adjacent equal blocks, as in `get_matching_blocks` (the
accumulator starts at the dummy `(0, 0, 0)`). -/
def mergeAdjacent : Nat × Nat × Nat → List (Nat × Nat × Nat) → List (Nat × Nat × Nat)
  | (i1, j1, k1), [] => if k1 ≠ 0 then [(i1, j1, k1)] else []
  | (i1, j1, k1), (i2, j2, k2) :: rest =>
    if i1 + k1 = i2 ∧ j1 + k1 = j2 then mergeAdjacent (i1, j1, k1 + k2) rest
    else (if k1 ≠ 0 then [(i1, j1, k1)] else []) ++ mergeAdjacent (i2, j2, k2) rest

/-- `SequenceMatcher.get_matching_blocks`, with the terminating sentinel. -/
def get_matching_blocks (a b : List String) : List (Nat × Nat × Nat) :=
  let b2j := chainB b
  mergeAdjacent (0, 0, 0) (mbRec a b b2j (a.length + b.length + 1) 0 a.length 0 b.length) ++
    [(a.length, b.length, 0)]

/-- An opcode `(tag, i1, i2, j1, j2)`. -/
abbrev Opcode : Type := String × Nat × Nat × Nat × Nat

/-- `SequenceMatcher.get_opcodes`' loop over the matching blocks. -/
def opcodesGo : Nat → Nat → List (Nat × Nat × Nat) → List Opcode
  | _, _, [] => []
  | i, j, (ai, bj, size) :: rest =>
    let tag : String :=
      if i < ai ∧ j < bj then "replace"
      else if i < ai then "delete"
      else if j < bj then "insert"
      else ""
    (if tag ≠ "" then [((tag, i, ai, j, bj) : Opcode)] else []) ++
      (if size ≠ 0 then [(("equal", ai, ai + size, bj, bj + size) : Opcode)] else []) ++
      opcodesGo (ai + size) (bj + size) rest

/-- `SequenceMatcher.get_opcodes`. -/
def get_opcodes (a b : List String) : List Opcode :=
  opcodesGo 0 0 (get_matching_blocks a b)

/-- `get_grouped_opcodes`' fix-up of a leading equal opcode. -/
def adjustHead (n : Nat) : List Opcode → List Opcode
  | [] => []
  | (tag, i1, i2, j1, j2) :: rest =>
    if tag = "equal" then (tag, max i1 (i2 - n), i2, max j1 (j2 - n), j2) :: rest
    else (tag, i1, i2, j1, j2) :: rest

/-- `get_grouped_opcodes`' fix-up of a trailing equal opcode. -/
def adjustLast (n : Nat) : List Opcode → List Opcode
  | [] => []
  | [(tag, i1, i2, j1, j2)] =>
    if tag = "equal" then [(tag, i1, min i2 (i1 + n), j1, min j2 (j1 + n))]
    else [(tag, i1, i2, j1, j2)]
  | c :: rest => c :: adjustLast n rest

/-- Grouping loop of `get_grouped_opcodes`: split at equal opcodes spanning
more than `2 * n` lines, and drop a final group that is a single equal
opcode. -/
def groupSplit (n : Nat) : List Opcode → List Opcode → List (List Opcode)
  | group, [] =>
    if group ≠ [] ∧ ¬(group.length = 1 ∧ (group.headD ("", 0, 0, 0, 0)).1 = "equal") then
      [group]
    else []
  | group, (tag, i1, i2, j1, j2) :: rest =>
    if tag = "equal" ∧ i2 - i1 > n + n then
      (group ++ [((tag, i1, min i2 (i1 + n), j1, min j2 (j1 + n)) : Opcode)]) ::
        groupSplit n [((tag, max i1 (i2 - n), i2, max j1 (j2 - n), j2) : Opcode)] rest
    else groupSplit n (group ++ [((tag, i1, i2, j1, j2) : Opcode)]) rest

/-- `SequenceMatcher.get_grouped_opcodes(n)` as a list. -/
def get_grouped_opcodes (n : Nat) (a b : List String) : List (List Opcode) :=
  let codes0 := get_opcodes a b
  let codes1 := if codes0 = [] then [(("equal", 0, 1, 0, 1) : Opcode)] else codes0
  groupSplit n [] (adjustLast n (adjustHead n codes1))

/-- `difflib._format_range_unified`. -/
def formatRangeUnified (start stop : Nat) : String :=
  let beginning := start + 1
  let length := stop - start
  if length = 1 then toString beginning
  else toString (if length = 0 then start else beginning) ++ "," ++ toString length

/-- One hunk of `unified_diff`: the `@@` control line followed by the
context, deletion and insertion lines of the group. -/
def unifiedHunk (a b : List String) (g : List Opcode) : List String :=
  let first := g.headD ("", 0, 0, 0, 0)
  let last := g.getLastD ("", 0, 0, 0, 0)
  ("@@ -" ++ formatRangeUnified first.2.1 last.2.2.1 ++ " +" ++
      formatRangeUnified first.2.2.2.1 last.2.2.2.2 ++ " @@" ++ "\n") ::
    g.flatMap fun op =>
      if op.1 = "equal" then
        (sliceList a op.2.1 op.2.2.1).map (fun line => " " ++ line)
      else
        (if op.1 = "replace" ∨ op.1 = "delete" then
          (sliceList a op.2.1 op.2.2.1).map (fun line => "-" ++ line)
        else []) ++
        (if op.1 = "replace" ∨ op.1 = "insert" then
          (sliceList b op.2.2.2.1 op.2.2.2.2).map (fun line => "+" ++ line)
        else [])

/-- `difflib.unified_diff(a, b)` with default arguments (`fromfile` and
`tofile` empty, three lines of context, `\n` line terminator), as a list of
the generated lines: the two header lines are emitted once if any group
exists. -/
def unified_diff (a b : List String) : List String :=
  let groups := get_grouped_opcodes 3 a b
  if groups = [] then []
  else ("--- " ++ "\n") :: ("+++ " ++ "\n") :: groups.flatMap (unifiedHunk a b)

/-! ## `Document.unchanged` and `Document.changes` (`_document.py`) -/

/-- Python slice `text[:3]`. -/
def pyTake3 (s : String) : String :=
  ⟨s.data.take 3⟩

/-- `Document.unchanged`: true iff the live contents equal the original
contents. -/
def Document.unchanged (d : Document) : Bool :=
  d.original_contents == d.contents

/-- `Document.changes`: the unified diff of the original contents against
the live contents, keeping only lines whose first three characters are not
`+++`, `---` or `@@ `, each retained line followed by a newline; the empty
string when unchanged. -/
def Document.changes (d : Document) : String :=
  if ¬ d.unchanged then
    let a := splitLines d.original_contents
    let b := splitLines d.contents
    (unified_diff a b).foldl
      (fun result text =>
        if ¬(pyTake3 text = "+++" ∨ pyTake3 text = "---" ∨ pyTake3 text = "@@ ") then
          result ++ text ++ "\n"
        else result)
      ""
  else ""

/-- Concatenation of a list of strings, one element at a time. -/
def joinStr : List String → String
  | [] => ""
  | s :: rest => s ++ joinStr rest

theorem strExt {s t : String} (h : s.data = t.data) : s = t := by
  cases s
  cases t
  exact congrArg String.mk h

theorem strAppend_assoc (a b c : String) : a ++ b ++ c = a ++ (b ++ c) :=
  strExt (by simp [List.append_assoc])

theorem strAppend_empty (s : String) : s ++ "" = s :=
  strExt (by simp)

theorem strEmpty_append (s : String) : "" ++ s = s := by
  cases s
  rfl

theorem foldl_strip_eq_join (p : String → Prop) [DecidablePred p] :
    ∀ (l : List String) (acc : String),
      l.foldl (fun result text => if p text then result ++ text ++ "\n" else result) acc =
        acc ++ joinStr ((l.filter (fun t => decide (p t))).map (fun t => t ++ "\n")) := by
  intro l
  induction l with
  | nil => intro acc; simp [joinStr, strAppend_empty]
  | cons t ts ih =>
    intro acc
    by_cases hp : p t
    · simp only [List.foldl_cons, if_pos hp, List.filter_cons, hp, decide_True, if_true,
        List.map_cons, joinStr]
      rw [ih]
      simp [strAppend_assoc]
    · simp only [List.foldl_cons, if_neg hp, List.filter_cons, hp, decide_False,
        Bool.false_eq_true, if_false]
      exact ih acc

set_option maxHeartbeats 2000000 in
/-- Counterexample to claim C7 as stated: on the document whose original
contents are `a` and whose live contents are `++a`, the unified diff is the
five lines below, whose first three lines are the header lines; stripping
exactly those three retains the insertion line `+++a`, but `changes` strips
it as well (its first three characters are `+++`), returning only `-a`
followed by a newline. -/
theorem changes_strips_nonheader_counterexample :
    unified_diff ["a"] ["++a"] =
      ["--- " ++ "\n", "+++ " ++ "\n", "@@ -1 +1 @@" ++ "\n", "-a", "+++a"] ∧
    Document.changes ⟨"x.md", "x.md", "a", "++a"⟩ = "-a" ++ "\n" ∧
    joinStr (((unified_diff ["a"] ["++a"]).drop 3).map (fun t => t ++ "\n")) =
      "-a" ++ "\n" ++ "+++a" ++ "\n" ∧
    Document.changes ⟨"x.md", "x.md", "a", "++a"⟩ ≠
      joinStr (((unified_diff ["a"] ["++a"]).drop 3).map (fun t => t ++ "\n")) := by
  refine ⟨by decide, by decide, by decide, by decide⟩

set_option maxHeartbeats 2000000 in
/-- Claim C7 as amended: `changes` returns the empty string when the
contents equal the original contents, and otherwise returns the unified
diff of the original contents against the live contents in which every line
whose first three characters are `+++`, `---` or `@@ ` is stripped — the
header lines, and also any diff body line that happens to begin with one of
those prefixes — with every retained line terminated by a newline. -/
theorem changes_spec (d : Document) :
    Document.changes d =
      if d.contents = d.original_contents then ""
      else
        joinStr
          (((unified_diff (splitLines d.original_contents) (splitLines d.contents)).filter
              (fun t =>
                decide (¬(pyTake3 t = "+++" ∨ pyTake3 t = "---" ∨ pyTake3 t = "@@ ")))).map
            (fun t => t ++ "\n")) := by
  unfold Document.changes Document.unchanged
  by_cases h : d.original_contents = d.contents
  · simp [h]
  · have h2 : ¬(d.contents = d.original_contents) := fun hh => h hh.symm
    have hb : (d.original_contents == d.contents) = false := by
      simpa using h
    rw [if_neg h2, hb]
    simp only [Bool.false_eq_true, not_false_eq_true, if_true]
    rw [foldl_strip_eq_join
      (fun text => ¬(pyTake3 text = "+++" ∨ pyTake3 text = "---" ∨ pyTake3 text = "@@ "))]
    exact strEmpty_append _

/-! ## Target-path renaming rules (`_rules.py`) -/

/-- `mddocproc._rules.move_to_target_dir_relative`, translated verbatim:
note that the source calls `os.path.relpath(root_directory, input_path)`
with the root as the path argument and the document as the start. -/
def move_to_target_dir_relative (context : ProcessingContext) (document : Document) :
    ProcessingContext × Document :=
  if context.settings.target_directory ≠ "" ∧
      context.settings.root_directory ≠ context.settings.target_directory then
    (context,
      { document with
        target_path :=
          joinPath context.settings.target_directory
            (relpath context.settings.root_directory document.input_path) })
  else (context, document)

/-- `mddocproc._rules.rename_uniquely_for_confluence`, translated verbatim:
the source again calls `os.path.relpath(root_directory, input_path)` in that
argument order, strips every occurrence of `.md` via `str.replace`, and
assigns the result to `context.target` (the document is not touched). -/
def rename_uniquely_for_confluence (context : ProcessingContext) (document : Document) :
    ProcessingContext × Document :=
  let rel_path := relpath context.settings.root_directory document.input_path
  let rel_path := replaceAll ".md" "" rel_path
  let parts := context.settings.version_name ::
    (pySplitChar '/' rel_path.data).map (fun l => (⟨l⟩ : String))
  let parent_dir := dirname (dirname rel_path)
  let bn := basename document.input_path
  let parts :=
    if pyLower bn = "readme.md" ∨ bn = parent_dir ++ ".md" then
      parts.dropLast ++ [String.intercalate " - " parts.dropLast ++ ".md"]
    else
      parts.dropLast ++ [String.intercalate " - " parts ++ ".md"]
  ({ context with target := some (joinPathList context.settings.target_directory parts) },
    document)

/-- Claim C1, evaluated at a failing input: with root `/docs`, target `/out`
and document `/docs/sub/a.md`, the rule sets `target_path` to `/out/../..`
(because the source passes the arguments of `os.path.relpath` in the order
`(root, input)`), whereas the document's path relative to the root joined
under the target directory is `/out/sub/a.md`. -/
theorem move_to_target_dir_relative_failing_input :
    (move_to_target_dir_relative
        ⟨⟨"/docs", "/out", "develop", []⟩, none⟩
        ⟨"/docs/sub/a.md", "/docs/sub/a.md", "", ""⟩).2.target_path = "/out/../.." ∧
    joinPath "/out" (relpath "/docs/sub/a.md" "/docs") = "/out/sub/a.md" ∧
    ("/out/../.." : String) ≠ "/out/sub/a.md" := by
  refine ⟨by decide, by decide, by decide⟩

/-- Claim C2, evaluated at a failing input: with root `/docs`, target `/out`,
version label `develop` and document `/docs/something/else/aswell.md`, the
rule leaves `document.target_path` untouched and instead assigns
`context.target`; the assigned path is
`/out/develop/../../develop - .. - .. - ...md` (reversed-argument
`os.path.relpath` plus retained ancestor directories), not the flat
`/out/develop - something - else - aswell.md` the claim describes. -/
theorem rename_uniquely_for_confluence_failing_input :
    (rename_uniquely_for_confluence
        ⟨⟨"/docs", "/out", "develop", []⟩, none⟩
        ⟨"/docs/something/else/aswell.md", "/docs/something/else/aswell.md", "", ""⟩) =
      (⟨⟨"/docs", "/out", "develop", []⟩,
          some "/out/develop/../../develop - .. - .. - ...md"⟩,
        ⟨"/docs/something/else/aswell.md", "/docs/something/else/aswell.md", "", ""⟩) ∧
    ("/out/develop/../../develop - .. - .. - ...md" : String) ≠
      "/out/develop - something - else - aswell.md" := by
  constructor
  · rfl
  · decide

end MDDoc
